import Mathlib

/-!
Shallow embedding of the polling / caching / history / metrics core of
`src/Home.py` (CoinGecko price page) and
`src/Streamlit_CS_Lab4_2/pages/weather_live.py` (Open-Meteo weather page),
with theorems checking the design specification against it.

Conventions used throughout:
* instants and durations are integers (think seconds); numeric payloads are
  integers as well (the source uses Python floats, whose arithmetic in the
  embedded fragment is a plain subtraction, modelled exactly);
* `Option` models Python `None` and pandas `NaN` (a missing value);
* each embedded definition cites the source lines it translates.
-/

/-- Modelled from the spec: the TTL result cache that `@st.cache_data(ttl=300)`
(Home.py line 39) and `@st.cache_data(ttl=600)` (weather_live.py line 22) wrap
around the fetch functions.  The decorator itself is Streamlit library code and
not part of `src/`; the spec describes it as PollCache: one cache entry
`(value, fetchedAt)` per request key (both pages call with a single constant
key), a hit iff `now - fetchedAt < ttl`, otherwise the Fetcher body runs and
the entry is replaced.  `fetchCount` instruments how many times the Fetcher
body actually ran. -/
structure CacheState (α : Type) where
  entry : Option (α × ℤ)
  ttl : ℤ
  fetchCount : ℕ
deriving DecidableEq

/-- Modelled from the spec: `PollCache.Get` — return the stored value on a
fresh entry, otherwise invoke the Fetcher, store its result at `now`, and
return it. -/
def cacheGet {α : Type} (fetcher : ℤ → α) (c : CacheState α) (now : ℤ) :
    α × CacheState α :=
  match c.entry with
  | some (v, fetchedAt) =>
      if now - fetchedAt < c.ttl then (v, c)
      else
        let v2 := fetcher now
        (v2, ⟨some (v2, now), c.ttl, c.fetchCount + 1⟩)
  | none =>
      let v2 := fetcher now
      (v2, ⟨some (v2, now), c.ttl, c.fetchCount + 1⟩)

/-- Modelled from the spec: `Invalidate` — `fetch_prices.clear()` (Home.py
lines 66, 140) and `get_weather.clear()` (weather_live.py lines 51, 137) drop
the cached entry unconditionally. -/
def cacheClear {α : Type} (c : CacheState α) : CacheState α :=
  ⟨none, c.ttl, c.fetchCount⟩

/-- Decidable test for the cache-hit condition of `cacheGet`. -/
def cacheHitB {α : Type} (c : CacheState α) (now : ℤ) : Bool :=
  match c.entry with
  | some (_, fetchedAt) => decide (now - fetchedAt < c.ttl)
  | none => false

/-- Embeds the `while ... popleft()` loops `prune_history` (Home.py lines
76-79) and `prune_weather` (weather_live.py lines 59-62): repeatedly drop the
first element while its timestamp is `< cutoff`; stop at the first element
whose timestamp is not below the cutoff. -/
def pruneFrom {α : Type} (ts : α → ℤ) (cutoff : ℤ) : List α → List α
  | [] => []
  | s :: rest => if ts s < cutoff then pruneFrom ts cutoff rest else s :: rest

/-- Embeds the metric computation shared by both pages (Home.py lines 111-121,
weather_live.py lines 95-110) on a series view: `current` is the value carried
by the last sample (`iloc[-1]`, absent when the view is empty or the value is
NaN), `prev` is the value of the second-to-last sample when the view has more
than one element, and `delta = current - prev` unless either side is missing
(`None`/`pd.isna`), in which case the delta is `None`. -/
def mcCompute (view : List (Option ℤ)) : Option ℤ × Option ℤ :=
  let current : Option ℤ := (view.getLast?).getD none
  let prev : Option ℤ :=
    if 1 < view.length then (view.dropLast.getLast?).getD none else none
  let delta : Option ℤ :=
    match current, prev with
    | some c, some p => some (c - p)
    | _, _ => none
  (current, delta)

/-- One row of the price table: Home.py line 49 builds rows `(coin, price)`
from the CoinGecko payload; Home.py lines 34-36 build the fallback rows. -/
structure PriceRow where
  coin : String
  price : ℤ
deriving DecidableEq

/-- One record of `st.session_state.price_history` (Home.py lines 95-99). -/
structure PriceSample where
  ts : ℤ
  coin : String
  price : ℤ
deriving DecidableEq

/-- The result pair of `fetch_prices` as the page consumes it:
`(df, error_message)` (Home.py line 41). -/
abbrev PriceFetchRes := Option (List PriceRow) × Option String

/-- Embeds `SAMPLE_DF` (Home.py lines 34-36): the fixed fallback table. -/
def sampleDF : List PriceRow := [⟨"bitcoin", 68000⟩, ⟨"ethereum", 3500⟩]

/-- Embeds `WINDOW_MINUTES = 30` (Home.py line 71), as a duration in seconds. -/
def priceWindow : ℤ := 30 * 60

/-- Embeds `ttl=300` (Home.py line 39). -/
def priceTTL : ℤ := 300

/-- Embeds `ttl=600` (weather_live.py line 22). -/
def weatherTTL : ℤ := 600

/-- The table the price page works with after the error fallback (Home.py
lines 84-87): the fetched table if no error, `SAMPLE_DF` otherwise. -/
def runDf (res : PriceFetchRes) : List PriceRow :=
  if res.2.isSome then sampleDF else res.1.getD []

/-- Output of one script run of the price page, below the fetch. -/
structure PriceRunOut where
  history : List PriceSample
  warning : Option String
  table : List PriceRow
  rerun : Bool
  clearCache : Bool
deriving DecidableEq

/-- Embeds one run of Home.py from the fetch result down (lines 84-141):
warn and substitute `SAMPLE_DF` on error (85-87), append one sample per table
row stamped with the `now` captured by this cycle (93-99), prune with a cutoff taken from a
second `datetime.utcnow()` call inside `prune_history` (77, called at 100),
and, when auto-refresh is on, sleep / clear the cache / rerun (138-141). -/
def priceRunFromRes (res : PriceFetchRes) (hist : List PriceSample)
    (now pruneNow : ℤ) (autoRefresh : Bool) : PriceRunOut :=
  let df := runDf res
  let rows := df.map fun r => ({ ts := now, coin := r.coin, price := r.price } : PriceSample)
  { history := pruneFrom PriceSample.ts (pruneNow - priceWindow) (hist ++ rows)
    warning := res.2
    table := df
    rerun := autoRefresh
    clearCache := autoRefresh }

/-- The per-session state the price page script keeps across runs: the
Streamlit cache backing `fetch_prices` and `st.session_state.price_history`. -/
structure PriceScriptState where
  cache : CacheState PriceFetchRes
  history : List PriceSample
deriving DecidableEq

/-- Output of one whole script run of the price page. -/
structure PriceScriptOut where
  state : PriceScriptState
  warning : Option String
  table : List PriceRow
  rerun : Bool
deriving DecidableEq

/-- One whole top-to-bottom run of Home.py: the cached fetch at line 84 (a
Fetcher invocation only on a cache miss), then the fallback / append / prune /
metrics body, then the auto-refresh epilogue, which clears the cache only when
the toggle read at line 60 was on. -/
def priceScriptRun (fetcher : ℤ → PriceFetchRes) (st : PriceScriptState)
    (now pruneNow : ℤ) (autoRefresh : Bool) : PriceScriptOut :=
  let fetched := cacheGet fetcher st.cache now
  let out := priceRunFromRes fetched.1 st.history now pruneNow autoRefresh
  let cache2 := if out.clearCache then cacheClear fetched.2 else fetched.2
  { state := ⟨cache2, out.history⟩
    warning := out.warning
    table := out.table
    rerun := out.rerun }

/-- A sequence of script runs of the price page; each list element gives that
run an entry `(now, pruneNow, autoRefresh)`. -/
def priceRunTrace (fetcher : ℤ → PriceFetchRes) (st : PriceScriptState) :
    List (ℤ × ℤ × Bool) → PriceScriptState
  | [] => st
  | c :: rest =>
      priceRunTrace fetcher (priceScriptRun fetcher st c.1 c.2.1 c.2.2).state rest

/-- Insertion step of `sortByTs`. -/
def insertByTs (s : PriceSample) : List PriceSample → List PriceSample
  | [] => [s]
  | t :: rest => if s.ts ≤ t.ts then s :: t :: rest else t :: insertByTs s rest

/-- A sort by ascending timestamp, standing in for `cdf.sort_values("ts")`
(Home.py line 112).  The pandas sort is unstable (quicksort), so its output on
views with duplicate timestamps is implementation-defined; every theorem below
applies `sortByTs` only to views that are already sorted, where every correct
sort — including this one — is the identity. -/
def sortByTs : List PriceSample → List PriceSample
  | [] => []
  | s :: rest => insertByTs s (sortByTs rest)

/-- Embeds `cdf = hist_df[hist_df["coin"] == coin].sort_values("ts")`
(Home.py line 112). -/
def priceSeriesView (coin : String) (hist : List PriceSample) : List PriceSample :=
  sortByTs (hist.filter fun s => s.coin = coin)

/-- Embeds `current = cdf["price"].iloc[-1] if len(cdf) else None` (Home.py 113). -/
def priceCurrent (coin : String) (hist : List PriceSample) : Option ℤ :=
  ((priceSeriesView coin hist).getLast?).map PriceSample.price

/-- Embeds `prev = cdf["price"].iloc[-2] if len(cdf) > 1 else None` (Home.py 114). -/
def pricePrevVal (coin : String) (hist : List PriceSample) : Option ℤ :=
  let cdf := priceSeriesView coin hist
  if 1 < cdf.length then (cdf.dropLast.getLast?).map PriceSample.price else none

/-- Embeds `delta = None if (current is None or prev is None) else current - prev`
(Home.py 115). -/
def priceDelta (coin : String) (hist : List PriceSample) : Option ℤ :=
  match priceCurrent coin hist, pricePrevVal coin hist with
  | some c, some p => some (c - p)
  | _, _ => none

/-- The timestamps of one coin series are strictly increasing. -/
def seriesStrict (coin : String) (hist : List PriceSample) : Prop :=
  (hist.filter fun s => s.coin = coin).Pairwise fun a b => a.ts < b.ts

/-- One record of `st.session_state.weather_history`
(weather_live.py lines 81-85).  `none` stands for a NaN that
`pd.notna` rejected. -/
structure WeatherSample where
  ts : ℤ
  temperature : Option ℤ
  wind : Option ℤ
deriving DecidableEq

/-- The result pair of `get_weather` as the page consumes it: an optional
one-row table `(time, temperature, wind)` plus an optional error message. -/
abbrev WFetchRes := Option (ℤ × ℤ × ℤ) × Option String

/-- Embeds `WINDOW_HOURS = 6` (weather_live.py line 55), as seconds. -/
def weatherWindow : ℤ := 6 * 3600

/-- The sample one weather run appends (weather_live.py lines 68-85): on an
error, a fallback row stamped with the `now` of this run, carrying NaN values, which
the `pd.notna` guards turn into `None`; on success, the cached or fresh API
row — its timestamp is `wdf["time"]`, the API-reported observation time, not
the `now` of this run. -/
def weatherSampleOf (res : WFetchRes) (now : ℤ) : WeatherSample :=
  match res.2, res.1 with
  | some _, _ => ⟨now, none, none⟩
  | none, some (t, temp, wind) => ⟨t, some temp, some wind⟩
  | none, none => ⟨now, none, none⟩

/-- Output of one script run of the weather page, below the fetch. -/
structure WeatherRunOut where
  history : List WeatherSample
  warning : Option String
  rerun : Bool
  clearCache : Bool
deriving DecidableEq

/-- Embeds one run of weather_live.py from the fetch result down (lines
67-138): warn on error (68-69), append exactly one sample (81-85), prune
(86, with the cutoff from a `datetime.utcnow()` call of its own, line 60),
and the auto-refresh epilogue (135-138). -/
def weatherRunFromRes (res : WFetchRes) (hist : List WeatherSample)
    (now pruneNow : ℤ) (autoRefresh : Bool) : WeatherRunOut :=
  { history := pruneFrom WeatherSample.ts (pruneNow - weatherWindow)
      (hist ++ [weatherSampleOf res now])
    warning := res.2
    rerun := autoRefresh
    clearCache := autoRefresh }

/-- The per-session state of the weather page script. -/
structure WeatherScriptState where
  cache : CacheState WFetchRes
  history : List WeatherSample
deriving DecidableEq

/-- Output of one whole script run of the weather page. -/
structure WeatherScriptOut where
  state : WeatherScriptState
  warning : Option String
  rerun : Bool
deriving DecidableEq

/-- One whole top-to-bottom run of weather_live.py: the cached fetch at line
67, the body, and the auto-refresh epilogue (135-138). -/
def weatherScriptRun (fetcher : ℤ → WFetchRes) (st : WeatherScriptState)
    (now pruneNow : ℤ) (autoRefresh : Bool) : WeatherScriptOut :=
  let fetched := cacheGet fetcher st.cache now
  let out := weatherRunFromRes fetched.1 st.history now pruneNow autoRefresh
  let cache2 := if out.clearCache then cacheClear fetched.2 else fetched.2
  { state := ⟨cache2, out.history⟩
    warning := out.warning
    rerun := out.rerun }

/-- A JSON value, as returned by `resp.json()`. -/
inductive Json where
  | null
  | bool (b : Bool)
  | num (n : ℤ)
  | str (s : String)
  | arr (elems : List Json)
  | obj (fields : List (String × Json))

/-- The Python exceptions the fetch bodies can surface.  Only
`requests.RequestException` is caught by the `except` clauses; the others
propagate to the caller. -/
inductive PyExc where
  | keyError (k : String)
  | typeError (msg : String)
  | valueError (msg : String)
deriving DecidableEq

/-- What one `requests.get` call can come back with: a raised
`requests.RequestException` (timeouts, connection errors, and — in the
requests versions these pages run against — JSON decode errors), or a
response with a status code, an optional `Retry-After` header, and a parsed
JSON body. -/
inductive HttpOutcome where
  | exc (msg : String)
  | resp (status : ℕ) (retryAfter : Option String) (body : Json)

/-- Python subscription `j[k]` on a JSON value: a lookup on a dict, a
`KeyError` when the key is absent, a `TypeError` on anything that is not a
dict (string keys never index lists). -/
def jsonIndex (j : Json) (k : String) : Except PyExc Json :=
  match j with
  | .obj fields =>
      match fields.lookup k with
      | some v => .ok v
      | none => .error (.keyError k)
  | _ => .error (.typeError "value is not subscriptable by a string key")

/-- Embeds `fetch_prices` (Home.py lines 40-52).  The `Except` error channel
carries exceptions that escape the function; `.ok` carries the returned
`(df, error_message)` pair, with the success payload kept as the raw JSON
fields (the page only iterates the resulting rows).  Branches in source
order: a raised `RequestException` is caught (lines 51-52); a 429 returns the
rate-limit message (44-46); `raise_for_status()` raises `HTTPError` — a
`RequestException`, caught — for statuses 400-599 (47); otherwise
`pd.DataFrame(data)` accepts a dict, a list or `None`, but raises an uncaught
`ValueError` on a scalar (string, number, bool) body (49). -/
def fetch_prices (o : HttpOutcome) :
    Except PyExc (Option (List (String × Json)) × Option String) :=
  match o with
  | .exc msg => .ok (none, some ("Network/HTTP error: " ++ msg))
  | .resp status retryAfter body =>
      if status = 429 then
        .ok (none, some ("429 Too Many Requests — try again after "
              ++ retryAfter.getD "a bit" ++ "s"))
      else if 400 ≤ status then
        .ok (none, some ("Network/HTTP error: HTTP status " ++ toString status))
      else
        match body with
        | .obj fields => .ok (some fields, none)
        | .arr _ => .ok (some [], none)
        | .null => .ok (some [], none)
        | _ => .error (.valueError "DataFrame constructor not properly called!")

/-- Embeds `get_weather` (weather_live.py lines 23-38).  Same shape as
`fetch_prices`; on a non-error response the body is taken apart by
`r.json()["current"]` and the three field reads (lines 30-34), each of which
can raise an uncaught `KeyError`/`TypeError`; the `float(...)` conversions
require numeric fields (the API returns JSON numbers) and otherwise raise an
uncaught conversion error. -/
def get_weather (o : HttpOutcome) :
    Except PyExc (Option (ℤ × ℤ × ℤ) × Option String) :=
  match o with
  | .exc msg => .ok (none, some ("Network/HTTP error: " ++ msg))
  | .resp status retryAfter body =>
      if status = 429 then
        .ok (none, some ("429 Too Many Requests — try again after "
              ++ retryAfter.getD "a bit" ++ "s"))
      else if 400 ≤ status then
        .ok (none, some ("Network/HTTP error: HTTP status " ++ toString status))
      else
        match jsonIndex body "current" with
        | .error e => .error e
        | .ok j =>
            match jsonIndex j "time", jsonIndex j "temperature_2m",
                jsonIndex j "wind_speed_10m" with
            | .ok (.num t), .ok (.num temp), .ok (.num wind) =>
                .ok (some (t, temp, wind), none)
            | .error e, _, _ => .error e
            | _, .error e, _ => .error e
            | _, _, .error e => .error e
            | _, _, _ => .error (.valueError "could not convert field to float")

/-! ## General lemmas about the embedded operations -/

theorem pruneFrom_sublist {α : Type} (ts : α → ℤ) (cutoff : ℤ) (l : List α) :
    List.Sublist (pruneFrom ts cutoff l) l := by
  induction l with
  | nil => exact List.Sublist.refl _
  | cons s rest ih =>
      simp only [pruneFrom]
      split
      · exact ih.trans (List.sublist_cons_self s rest)
      · exact List.Sublist.refl _

theorem mem_of_mem_pruneFrom {α : Type} {ts : α → ℤ} {cutoff : ℤ} {l : List α}
    {x : α} (h : x ∈ pruneFrom ts cutoff l) : x ∈ l :=
  (pruneFrom_sublist ts cutoff l).subset h

theorem mem_pruneFrom_of_le {α : Type} {ts : α → ℤ} {cutoff : ℤ} {l : List α}
    {x : α} (hx : cutoff ≤ ts x) (h : x ∈ l) : x ∈ pruneFrom ts cutoff l := by
  induction l with
  | nil => cases h
  | cons s rest ih =>
      simp only [pruneFrom]
      split
      · next hlt =>
          rcases List.mem_cons.1 h with rfl | hm
          · exact absurd hlt (not_lt.2 hx)
          · exact ih hm
      · exact h

theorem pruneFrom_eq_self {α : Type} {ts : α → ℤ} {cutoff : ℤ} {l : List α}
    (h : ∀ x ∈ l, cutoff ≤ ts x) : pruneFrom ts cutoff l = l := by
  cases l with
  | nil => rfl
  | cons s rest =>
      simp only [pruneFrom]
      rw [if_neg (not_lt.2 (h s (List.mem_cons_self s rest)))]

theorem pruneFrom_append {α : Type} (ts : α → ℤ) (cutoff : ℤ) (l r : List α)
    (h : ∀ x ∈ r, cutoff ≤ ts x) :
    pruneFrom ts cutoff (l ++ r) = pruneFrom ts cutoff l ++ r := by
  induction l with
  | nil =>
      simp only [List.nil_append]
      exact pruneFrom_eq_self h
  | cons s rest ih =>
      simp only [List.cons_append, pruneFrom]
      split
      · exact ih
      · rfl

theorem pruneFrom_idem {α : Type} (ts : α → ℤ) (cutoff : ℤ) (l : List α) :
    pruneFrom ts cutoff (pruneFrom ts cutoff l) = pruneFrom ts cutoff l := by
  induction l with
  | nil => rfl
  | cons s rest ih =>
      simp only [pruneFrom]
      split
      · exact ih
      · next h => simp only [pruneFrom, if_neg h]

theorem pruneFrom_eq_filter {α : Type} (ts : α → ℤ) (cutoff : ℤ) :
    ∀ l : List α, l.Pairwise (fun a b => ts a ≤ ts b) →
      pruneFrom ts cutoff l = l.filter fun a => cutoff ≤ ts a
  | [], _ => rfl
  | s :: rest, hs => by
      rw [List.pairwise_cons] at hs
      by_cases h : ts s < cutoff
      · have hrest := pruneFrom_eq_filter ts cutoff rest hs.2
        simp only [pruneFrom, if_pos h, List.filter_cons, hrest]
        rw [if_neg (by simpa using not_le.2 h)]
      · have hall : (rest.filter fun a => cutoff ≤ ts a) = rest :=
          List.filter_eq_self.2 fun a ha => by
            have h1 := hs.1 a ha
            have h2 := not_lt.1 h
            simpa using le_trans h2 h1
        simp only [pruneFrom, if_neg h, List.filter_cons]
        rw [if_pos (by simpa using not_lt.1 h), hall]

/-! ## Claim C1 — cache hit within the TTL -/

/-- C1, counterexample.  As stated — for EVERY elapsed time `e < t`, a second
`Get` within `e` of any first `Get` is a hit — the claim fails: with
`ttl = 300`, an entry fetched at time 0, a first `Get` at time 299 (a hit on
that old entry) and a second `Get` only `e = 2 < 300` later, the second `Get`
finds the entry expired and invokes the Fetcher (`fetchCount` rises from 1
to 2). -/
theorem c1_cache_counterexample :
    (cacheGet (fun _ => (7:ℤ))
        ((cacheGet (fun _ => (7:ℤ)) ⟨some (5, 0), 300, 1⟩ 299).2)
        (299 + 2)).2.fetchCount = 2
      ∧ (cacheGet (fun _ => (7:ℤ)) ⟨some (5, 0), 300, 1⟩ 299).2.fetchCount = 1
      ∧ ((2:ℤ) < 300) := by decide

/-- C1 (amended): for every TTL value and every elapsed time `0 ≤ e < ttl`
measured from a `Get` that actually invoked the Fetcher (a miss, which stores
the entry), the second `Get` within `e` returns the stored result, performs
zero Fetcher invocations, and leaves the cache state unchanged. -/
theorem c1_cache_hit_within_ttl {α : Type} (fetcher : ℤ → α)
    (c : CacheState α) (t0 e : ℤ)
    (hmiss : cacheHitB c t0 = false) (h0 : 0 ≤ e) (he : e < c.ttl) :
    cacheGet fetcher ((cacheGet fetcher c t0).2) (t0 + e)
      = ((cacheGet fetcher c t0).1, (cacheGet fetcher c t0).2) := by
  rcases c with ⟨entry, ttl, n⟩
  cases entry with
  | none =>
      simp only [cacheGet]
      rw [if_pos (by simp at he ⊢; omega)]
  | some p =>
      rcases p with ⟨v, f⟩
      simp only [cacheHitB, decide_eq_false_iff_not] at hmiss
      simp only [cacheGet, if_neg hmiss]
      rw [if_pos (by simp at he ⊢; omega)]

/-- C1, witness. -/
theorem c1_cache_hit_within_ttl_witness :
    cacheGet (fun _ => (9:ℤ)) ((cacheGet (fun _ => (9:ℤ)) ⟨none, 300, 0⟩ 1000).2) (1000 + 10)
      = ((cacheGet (fun _ => (9:ℤ)) ⟨none, 300, 0⟩ 1000).1,
         (cacheGet (fun _ => (9:ℤ)) ⟨none, 300, 0⟩ 1000).2) :=
  c1_cache_hit_within_ttl _ _ 1000 10 (by decide) (by decide) (by decide)

/-! ## Claim C2 — pruning -/

/-- C2, counterexample.  On an out-of-order history the `while` loop stops at
the first young-enough sample, so `Prune` does NOT remove exactly the samples
older than the cutoff: with cutoff 5, the sample at timestamp 0 hiding behind
the sample at timestamp 10 survives even though `0 < 5`. -/
theorem c2_prune_counterexample :
    pruneFrom PriceSample.ts 5 [⟨10, "bitcoin", 1⟩, ⟨0, "bitcoin", 2⟩]
        = [⟨10, "bitcoin", 1⟩, ⟨0, "bitcoin", 2⟩]
      ∧ (⟨0, "bitcoin", 2⟩ : PriceSample).ts < 5 := by decide

/-- C2 (amended): on a history whose timestamps are non-decreasing in
insertion order — the invariant the spec itself asserts for HistoryWindow —
`Prune(now)` removes exactly the samples with `timestamp < now - window`
(i.e. it equals a filter, which also keeps the surviving samples in their
original order), and pruning is idempotent (the idempotence needs no
sortedness). -/
theorem c2_prune_exact {α : Type} (ts : α → ℤ) (cutoff : ℤ) (l : List α)
    (hs : l.Pairwise fun a b => ts a ≤ ts b) :
    pruneFrom ts cutoff l = l.filter (fun a => cutoff ≤ ts a)
      ∧ pruneFrom ts cutoff (pruneFrom ts cutoff l) = pruneFrom ts cutoff l :=
  ⟨pruneFrom_eq_filter ts cutoff l hs, pruneFrom_idem ts cutoff l⟩

/-- C2, witness. -/
theorem c2_prune_exact_witness :
    pruneFrom PriceSample.ts 15 [⟨0, "bitcoin", 1⟩, ⟨10, "ethereum", 2⟩, ⟨20, "bitcoin", 3⟩]
        = [⟨0, "bitcoin", 1⟩, ⟨10, "ethereum", 2⟩, ⟨20, "bitcoin", 3⟩].filter
            (fun a => 15 ≤ PriceSample.ts a)
      ∧ pruneFrom PriceSample.ts 15
            (pruneFrom PriceSample.ts 15 [⟨0, "bitcoin", 1⟩, ⟨10, "ethereum", 2⟩, ⟨20, "bitcoin", 3⟩])
          = pruneFrom PriceSample.ts 15 [⟨0, "bitcoin", 1⟩, ⟨10, "ethereum", 2⟩, ⟨20, "bitcoin", 3⟩] :=
  c2_prune_exact PriceSample.ts 15 _ (by decide)

/-! ## Claim C3 — metric computation -/

/-- C3: on an empty view the metrics are `(absent, absent)`; on a single
sample they are `(its value, absent)`; on two or more samples the delta is
exactly `last - secondToLast`, and a missing value on either side makes the
delta absent instead of crashing or becoming zero. -/
theorem c3_metrics_compute :
    mcCompute [] = (none, none)
      ∧ (∀ v : Option ℤ, mcCompute [v] = (v, none))
      ∧ (∀ (vs : List (Option ℤ)) (a b : Option ℤ),
          mcCompute (vs ++ [a, b])
            = (b, match b, a with
                  | some c, some p => some (c - p)
                  | _, _ => none)) := by
  refine ⟨rfl, ?_, ?_⟩
  · intro v; cases v <;> rfl
  · intro vs a b
    have hra : vs ++ [a, b] = (vs ++ [a]) ++ [b] := by simp
    have h1 : (vs ++ [a, b]).getLast? = some b := by rw [hra]; exact List.getLast?_concat _
    have h2 : (vs ++ [a, b]).dropLast = vs ++ [a] := by rw [hra]; exact List.dropLast_concat
    have h3 : 1 < (vs ++ [a, b]).length := by
      simp only [List.length_append, List.length_cons, List.length_nil]
      omega
    simp only [mcCompute, h1, h2, if_pos h3, List.getLast?_concat, Option.getD_some]

/-! ## Claim C4 — the fetch can raise -/

/-- C4: the fetch bodies catch only `requests.RequestException`, so a 200
response with a malformed JSON body escapes as an uncaught exception:
`get_weather` raises `KeyError("current")` on a body without a `current`
object (weather_live.py line 30), and `fetch_prices` raises the
`pd.DataFrame` `ValueError` on a scalar body (Home.py line 49) — contradicting
the claim and the docstring `Never raise.` (Home.py line 41).  Genuine network
failures are, as documented, returned as error values (third conjunct). -/
theorem c4_fetch_can_raise :
    get_weather (.resp 200 none (.obj [])) = .error (.keyError "current")
      ∧ fetch_prices (.resp 200 none (.str "oops"))
          = .error (.valueError "DataFrame constructor not properly called!")
      ∧ fetch_prices (.exc "timeout")
          = .ok (none, some "Network/HTTP error: timeout") :=
  ⟨rfl, rfl, rfl⟩

/-! ## Claim C5 — invalidate then get always fetches -/

/-- C5: after `Invalidate` (the manual-refresh path clears the cache), a `Get`
always invokes the Fetcher exactly once and returns its fresh result,
regardless of the TTL state of the prior entry. -/
theorem c5_invalidate_then_get_fetches {α : Type} (fetcher : ℤ → α)
    (c : CacheState α) (now : ℤ) :
    (cacheGet fetcher (cacheClear c) now).1 = fetcher now
      ∧ (cacheGet fetcher (cacheClear c) now).2.fetchCount = c.fetchCount + 1 :=
  ⟨rfl, rfl⟩

/-! ## Claim C6 — graceful degradation on a failed cycle -/

/-- C6: whenever a fetch cycle produces an error, the page exposes the error
message as a warning alongside the data it still has: the displayed table is
the non-empty fallback (never a blank view), every prior history sample still
inside the window survives the append-and-prune step and remains available to
the chart, and the auto-refresh epilogue behaves exactly as in a successful
cycle (the loop continues at its normal interval).  The same holds on the
weather page. -/
theorem c6_error_cycle_degrades (msg : String) (resOpt : Option (List PriceRow))
    (hist : List PriceSample) (whist : List WeatherSample)
    (wres : Option (ℤ × ℤ × ℤ)) (df : List PriceRow)
    (now pruneNow : ℤ) (autoRefresh : Bool) :
    (priceRunFromRes (resOpt, some msg) hist now pruneNow autoRefresh).warning = some msg
    ∧ (priceRunFromRes (resOpt, some msg) hist now pruneNow autoRefresh).table = sampleDF
    ∧ (priceRunFromRes (resOpt, some msg) hist now pruneNow autoRefresh).table ≠ []
    ∧ (∀ s ∈ hist, pruneNow - priceWindow ≤ s.ts →
        s ∈ (priceRunFromRes (resOpt, some msg) hist now pruneNow autoRefresh).history)
    ∧ (priceRunFromRes (resOpt, some msg) hist now pruneNow autoRefresh).rerun
        = (priceRunFromRes (some df, none) hist now pruneNow autoRefresh).rerun
    ∧ (weatherRunFromRes (wres, some msg) whist now pruneNow autoRefresh).warning = some msg
    ∧ (∀ s ∈ whist, pruneNow - weatherWindow ≤ s.ts →
        s ∈ (weatherRunFromRes (wres, some msg) whist now pruneNow autoRefresh).history)
    ∧ (weatherRunFromRes (wres, some msg) whist now pruneNow autoRefresh).rerun = autoRefresh := by
  refine ⟨rfl, rfl, by simp [priceRunFromRes, runDf, sampleDF], ?_, rfl, rfl, ?_, rfl⟩
  · intro s hmem hts
    exact mem_pruneFrom_of_le hts (List.mem_append_left _ hmem)
  · intro s hmem hts
    exact mem_pruneFrom_of_le hts (List.mem_append_left _ hmem)

/-- C6, witness. -/
theorem c6_error_cycle_degrades_witness :
    (priceRunFromRes (none, some "oops") [⟨50, "bitcoin", 9⟩] 60 60 true).warning = some "oops"
      ∧ ((60:ℤ) - priceWindow ≤ 50
          ∧ (⟨50, "bitcoin", 9⟩ : PriceSample)
              ∈ (priceRunFromRes (none, some "oops") [⟨50, "bitcoin", 9⟩] 60 60 true).history) :=
  ⟨(c6_error_cycle_degrades "oops" none [⟨50, "bitcoin", 9⟩] [] none [] 60 60 true).1,
   by decide,
   (c6_error_cycle_degrades "oops" none [⟨50, "bitcoin", 9⟩] [] none [] 60 60 true).2.2.2.1
      ⟨50, "bitcoin", 9⟩ (by decide) (by decide)⟩

/-! ## Claim C8 — stopping auto-refresh -/

/-- A stub fetcher that always succeeds with the sample table. -/
def priceStubFetcher : ℤ → PriceFetchRes := fun _ => (some sampleDF, none)

/-- State after one auto-refresh run from an empty session: the epilogue has
cleared the cache before rerunning. -/
def c8StateAfterAuto : PriceScriptState :=
  (priceScriptRun priceStubFetcher ⟨⟨none, 300, 0⟩, []⟩ 0 0 true).state

/-- State after the follow-up run in which the user has switched auto-refresh
off (the cancellation the claim speaks about). -/
def c8StateAfterStop : PriceScriptState :=
  (priceScriptRun priceStubFetcher c8StateAfterAuto 30 30 false).state

/-- C8, counterexample.  "No fetch ever occurs after cancellation" fails: an
auto cycle ends by clearing the cache and rerunning the script; the very run
in which auto-refresh is read as off still executes the cached fetch at the
top of the script, and — the cache having just been cleared — that is a real
Fetcher invocation (`fetchCount` rises from 1 to 2 after the stop). -/
theorem c8_fetch_after_stop :
    c8StateAfterStop.cache.fetchCount = 2
      ∧ c8StateAfterAuto.cache.fetchCount = 1
      ∧ c8StateAfterAuto.cache.entry = none := by decide

/-- C8 (amended): switching auto-refresh off is honoured at script-run
granularity, not inside the sleep: a run that reads the toggle as off fires no
rerun and does not clear the cache (no further cycle is scheduled), but it
still performs a `Get`, which invokes the Fetcher exactly when the cache has
no fresh entry; a run that reads the toggle as on always schedules another
cycle. -/
theorem c8_stop_semantics (fetcher : ℤ → PriceFetchRes)
    (st : PriceScriptState) (now pruneNow : ℤ) :
    (priceScriptRun fetcher st now pruneNow false).rerun = false
    ∧ (priceScriptRun fetcher st now pruneNow false).state.cache.fetchCount
        = st.cache.fetchCount + (if cacheHitB st.cache now then 0 else 1)
    ∧ (priceScriptRun fetcher st now pruneNow true).rerun = true := by
  refine ⟨rfl, ?_, rfl⟩
  rcases st with ⟨⟨entry, ttl, n⟩, hist⟩
  cases entry with
  | none => simp [priceScriptRun, cacheGet, cacheHitB, priceRunFromRes, cacheClear]
  | some p =>
      rcases p with ⟨v, f⟩
      by_cases h : now - f < ttl
      · simp [priceScriptRun, cacheGet, cacheHitB, priceRunFromRes, cacheClear, h]
      · simp [priceScriptRun, cacheGet, cacheHitB, priceRunFromRes, cacheClear, h]

/-! ## Claim C10 — every run appends, cache hit or not -/

/-- C10: a script run whose fetch is a cache hit performs zero Fetcher
invocations yet still appends one sample per table row to the history —
duplicating the cached values, and on the weather page duplicating the cached
API-reported timestamp — so the history length grows with runs, not with
Fetcher invocations. -/
theorem c10_append_regardless_of_hit
    (pfetch : ℤ → PriceFetchRes) (pst : PriceScriptState) (v : PriceFetchRes)
    (f now pruneNow : ℤ)
    (hpe : pst.cache.entry = some (v, f)) (hpt : now - f < pst.cache.ttl)
    (hwin : ∀ s ∈ pst.history, pruneNow - priceWindow ≤ s.ts)
    (hnow : pruneNow - priceWindow ≤ now)
    (wfetch : ℤ → WFetchRes) (wst : WeatherScriptState) (wv : WFetchRes)
    (wf wnow wpruneNow : ℤ)
    (hwe : wst.cache.entry = some (wv, wf)) (hwt : wnow - wf < wst.cache.ttl)
    (hwwin : ∀ s ∈ wst.history, wpruneNow - weatherWindow ≤ s.ts)
    (hwrow : wpruneNow - weatherWindow ≤ (weatherSampleOf wv wnow).ts) :
    (priceScriptRun pfetch pst now pruneNow false).state.cache.fetchCount
        = pst.cache.fetchCount
    ∧ (priceScriptRun pfetch pst now pruneNow false).state.history
        = pst.history ++ (runDf v).map
            (fun r => ({ ts := now, coin := r.coin, price := r.price } : PriceSample))
    ∧ (priceScriptRun pfetch pst now pruneNow false).state.history.length
        = pst.history.length + (runDf v).length
    ∧ (weatherScriptRun wfetch wst wnow wpruneNow false).state.cache.fetchCount
        = wst.cache.fetchCount
    ∧ (weatherScriptRun wfetch wst wnow wpruneNow false).state.history
        = wst.history ++ [weatherSampleOf wv wnow] := by
  rcases pst with ⟨⟨pentry, pttl, pn⟩, phist⟩
  rcases wst with ⟨⟨wentry, wttl, wn⟩, whist⟩
  simp only [PriceScriptState.mk.injEq] at *
  subst hpe
  subst hwe
  have hprows : ∀ x ∈ (runDf v).map
      (fun r => ({ ts := now, coin := r.coin, price := r.price } : PriceSample)),
      pruneNow - priceWindow ≤ x.ts := by
    intro x hx
    rcases List.mem_map.1 hx with ⟨r, _, rfl⟩
    exact hnow
  have hph : pruneFrom PriceSample.ts (pruneNow - priceWindow)
      (phist ++ (runDf v).map
        (fun r => ({ ts := now, coin := r.coin, price := r.price } : PriceSample)))
      = phist ++ (runDf v).map
        (fun r => ({ ts := now, coin := r.coin, price := r.price } : PriceSample)) := by
    rw [pruneFrom_append _ _ _ _ hprows, pruneFrom_eq_self hwin]
  have hwh : pruneFrom WeatherSample.ts (wpruneNow - weatherWindow)
      (whist ++ [weatherSampleOf wv wnow]) = whist ++ [weatherSampleOf wv wnow] := by
    rw [pruneFrom_append _ _ _ _ (by simpa using hwrow), pruneFrom_eq_self hwwin]
  refine ⟨?_, ?_, ?_, ?_, ?_⟩
  · simp [priceScriptRun, cacheGet, hpt, priceRunFromRes, cacheClear]
  · simp [priceScriptRun, cacheGet, hpt, priceRunFromRes, cacheClear, hph]
  · simp [priceScriptRun, cacheGet, hpt, priceRunFromRes, cacheClear, hph]
  · simp [weatherScriptRun, cacheGet, hwt, weatherRunFromRes, cacheClear]
  · simp [weatherScriptRun, cacheGet, hwt, weatherRunFromRes, cacheClear, hwh]

/-- Concrete price-page state with a fresh cache entry, for the C10 witness. -/
def c10PriceState : PriceScriptState :=
  ⟨⟨some ((some [⟨"bitcoin", 50⟩], none), 0), 300, 1⟩, []⟩

/-- Concrete weather-page state with a fresh cache entry, for the C10
witness. -/
def c10WeatherState : WeatherScriptState :=
  ⟨⟨some ((some (100, 20, 5), none), 0), 600, 1⟩, []⟩

/-- C10, witness. -/
theorem c10_append_regardless_of_hit_witness :
    (priceScriptRun (fun _ => (none, none)) c10PriceState 10 10 false).state.cache.fetchCount = 1
      ∧ (weatherScriptRun (fun _ => (none, none)) c10WeatherState 10 10 false).state.history
          = [⟨100, some 20, some 5⟩] := by
  have h := c10_append_regardless_of_hit (fun _ => (none, none)) c10PriceState
      ((some [⟨"bitcoin", 50⟩], none)) 0 10 10 rfl (by decide)
      (by intro s hs; simp [c10PriceState] at hs) (by decide)
      (fun _ => (none, none)) c10WeatherState ((some (100, 20, 5), none)) 0 10 10 rfl (by decide)
      (by intro s hs; simp [c10WeatherState] at hs) (by decide)
  exact ⟨h.1, h.2.2.2.2⟩

/-! ## Sort lemmas (the metric view sort is the identity on sorted views) -/

theorem insertByTs_eq_cons {s : PriceSample} {l : List PriceSample}
    (h : ∀ t ∈ l, s.ts ≤ t.ts) : insertByTs s l = s :: l := by
  cases l with
  | nil => rfl
  | cons t rest => simp only [insertByTs, if_pos (h t (List.mem_cons_self t rest))]

theorem sortByTs_eq_self : ∀ {l : List PriceSample},
    l.Pairwise (fun a b => a.ts ≤ b.ts) → sortByTs l = l
  | [], _ => rfl
  | s :: rest, h => by
      rw [List.pairwise_cons] at h
      simp only [sortByTs]
      rw [sortByTs_eq_self h.2]
      exact insertByTs_eq_cons h.1

/-! ## Claim C9 — the error fallback feeds the metrics -/

/-- C9: on the price page, a cycle whose fetch reports an error appends the
fixed `SAMPLE_DF` rows (bitcoin 68000, ethereum 3500) to the history as
ordinary samples stamped with the `now` of the cycle, and the metrics of the
resulting history are computed from those constants: both `current` values are
the constants, and the bitcoin delta is `68000 - previous bitcoin value` (or
absent when this cycle wrote the first bitcoin sample). -/
theorem c9_error_appends_constants (msg : String) (resOpt : Option (List PriceRow))
    (hist : List PriceSample) (now pruneNow : ℤ) (autoRefresh : Bool)
    (hsorted : hist.Pairwise fun a b => a.ts ≤ b.ts)
    (hle : ∀ s ∈ hist, s.ts ≤ now)
    (hwin : pruneNow - priceWindow ≤ now) :
    (priceRunFromRes (resOpt, some msg) hist now pruneNow autoRefresh).history
        = pruneFrom PriceSample.ts (pruneNow - priceWindow) hist
            ++ [⟨now, "bitcoin", 68000⟩, ⟨now, "ethereum", 3500⟩]
    ∧ priceCurrent "bitcoin"
        ((priceRunFromRes (resOpt, some msg) hist now pruneNow autoRefresh).history)
        = some 68000
    ∧ priceCurrent "ethereum"
        ((priceRunFromRes (resOpt, some msg) hist now pruneNow autoRefresh).history)
        = some 3500
    ∧ priceDelta "bitcoin"
        ((priceRunFromRes (resOpt, some msg) hist now pruneNow autoRefresh).history)
        = (priceCurrent "bitcoin"
              (pruneFrom PriceSample.ts (pruneNow - priceWindow) hist)).map
            (fun p => 68000 - p) := by
  have hhist : (priceRunFromRes (resOpt, some msg) hist now pruneNow autoRefresh).history
      = pruneFrom PriceSample.ts (pruneNow - priceWindow) hist
          ++ [⟨now, "bitcoin", 68000⟩, ⟨now, "ethereum", 3500⟩] := by
    show pruneFrom PriceSample.ts (pruneNow - priceWindow)
        (hist ++ [⟨now, "bitcoin", 68000⟩, ⟨now, "ethereum", 3500⟩]) = _
    refine pruneFrom_append _ _ _ _ ?_
    intro x hx
    simp only [List.mem_cons, List.not_mem_nil, or_false] at hx
    rcases hx with rfl | rfl <;> exact hwin
  have hps : (pruneFrom PriceSample.ts (pruneNow - priceWindow) hist).Pairwise
      (fun a b => a.ts ≤ b.ts) := hsorted.sublist (pruneFrom_sublist _ _ _)
  have hple : ∀ s ∈ pruneFrom PriceSample.ts (pruneNow - priceWindow) hist, s.ts ≤ now :=
    fun s hs => hle s (mem_of_mem_pruneFrom hs)
  -- the bitcoin series view of the new history
  have hbfilter : ((pruneFrom PriceSample.ts (pruneNow - priceWindow) hist
        ++ ([⟨now, "bitcoin", 68000⟩, ⟨now, "ethereum", 3500⟩] : List PriceSample)).filter
          fun s => s.coin = "bitcoin")
      = ((pruneFrom PriceSample.ts (pruneNow - priceWindow) hist).filter
          fun s => s.coin = "bitcoin") ++ [⟨now, "bitcoin", 68000⟩] := by
    rw [List.filter_append]; rfl
  have hbf_sorted : (((pruneFrom PriceSample.ts (pruneNow - priceWindow) hist).filter
      fun s => s.coin = "bitcoin")).Pairwise (fun a b => a.ts ≤ b.ts) := hps.filter _
  have hbf_le : ∀ t ∈ ((pruneFrom PriceSample.ts (pruneNow - priceWindow) hist).filter
      fun s => s.coin = "bitcoin"), t.ts ≤ now :=
    fun t ht => hple t (List.mem_of_mem_filter ht)
  have hbview : priceSeriesView "bitcoin"
      (pruneFrom PriceSample.ts (pruneNow - priceWindow) hist
        ++ [⟨now, "bitcoin", 68000⟩, ⟨now, "ethereum", 3500⟩])
      = ((pruneFrom PriceSample.ts (pruneNow - priceWindow) hist).filter
          fun s => s.coin = "bitcoin") ++ [⟨now, "bitcoin", 68000⟩] := by
    unfold priceSeriesView
    rw [hbfilter]
    apply sortByTs_eq_self
    rw [List.pairwise_append]
    refine ⟨hbf_sorted, List.pairwise_singleton _ _, ?_⟩
    intro a ha b hb
    simp only [List.mem_cons, List.not_mem_nil, or_false] at hb
    subst hb
    exact hbf_le a ha
  -- the ethereum series view of the new history
  have heview : priceSeriesView "ethereum"
      (pruneFrom PriceSample.ts (pruneNow - priceWindow) hist
        ++ [⟨now, "bitcoin", 68000⟩, ⟨now, "ethereum", 3500⟩])
      = ((pruneFrom PriceSample.ts (pruneNow - priceWindow) hist).filter
          fun s => s.coin = "ethereum") ++ [⟨now, "ethereum", 3500⟩] := by
    unfold priceSeriesView
    rw [List.filter_append]
    have : (([⟨now, "bitcoin", 68000⟩, ⟨now, "ethereum", 3500⟩] : List PriceSample).filter
        fun s => s.coin = "ethereum") = [⟨now, "ethereum", 3500⟩] := rfl
    rw [this]
    apply sortByTs_eq_self
    rw [List.pairwise_append]
    refine ⟨hps.filter _, List.pairwise_singleton _ _, ?_⟩
    intro a ha b hb
    simp only [List.mem_cons, List.not_mem_nil, or_false] at hb
    subst hb
    exact hple a (List.mem_of_mem_filter ha)
  -- the bitcoin series view of the pruned old history
  have hbold : priceSeriesView "bitcoin" (pruneFrom PriceSample.ts (pruneNow - priceWindow) hist)
      = ((pruneFrom PriceSample.ts (pruneNow - priceWindow) hist).filter
          fun s => s.coin = "bitcoin") := by
    unfold priceSeriesView
    exact sortByTs_eq_self hbf_sorted
  refine ⟨hhist, ?_, ?_, ?_⟩
  · rw [hhist]
    unfold priceCurrent
    rw [hbview, List.getLast?_concat]
    rfl
  · rw [hhist]
    unfold priceCurrent
    rw [heview, List.getLast?_concat]
    rfl
  · rw [hhist]
    unfold priceDelta priceCurrent pricePrevVal
    rw [hbview, hbold, List.getLast?_concat]
    cases hbf : ((pruneFrom PriceSample.ts (pruneNow - priceWindow) hist).filter
        fun s => s.coin = "bitcoin") with
    | nil => rfl
    | cons x xs =>
        have hlen : 1 < ((x :: xs) ++ [(⟨now, "bitcoin", 68000⟩ : PriceSample)]).length := by
          simp only [List.length_append, List.length_cons, List.length_nil]
          omega
        rw [if_pos hlen, List.dropLast_concat]
        cases hlast : (x :: xs).getLast? with
        | none => simp at hlast
        | some p => rfl

/-- C9, witness. -/
theorem c9_error_appends_constants_witness :
    priceCurrent "bitcoin"
        ((priceRunFromRes (none, some "down") [⟨50, "bitcoin", 60000⟩] 60 60 false).history)
        = some 68000
      ∧ priceDelta "bitcoin"
          ((priceRunFromRes (none, some "down") [⟨50, "bitcoin", 60000⟩] 60 60 false).history)
          = (priceCurrent "bitcoin"
                (pruneFrom PriceSample.ts (60 - priceWindow) [⟨50, "bitcoin", 60000⟩])).map
              (fun p => 68000 - p) :=
  ⟨(c9_error_appends_constants "down" none [⟨50, "bitcoin", 60000⟩] 60 60 false
      (by simp) (by decide) (by decide)).2.1,
   (c9_error_appends_constants "down" none [⟨50, "bitcoin", 60000⟩] 60 60 false
      (by simp) (by decide) (by decide)).2.2.2⟩

/-! ## Claim C7 — order of appended timestamps -/

theorem pairwise_of_length_le_one {α : Type} {R : α → α → Prop} :
    ∀ {l : List α}, l.length ≤ 1 → l.Pairwise R
  | [], _ => List.Pairwise.nil
  | [_], _ => by simp
  | _ :: _ :: _, h => by simp at h

theorem filter_coin_map_rows (c : String) (df : List PriceRow) (now : ℤ) :
    ((df.map fun r => ({ ts := now, coin := r.coin, price := r.price } : PriceSample)).filter
        fun s => s.coin = c)
      = ((df.filter fun r => r.coin = c).map
          fun r => ({ ts := now, coin := r.coin, price := r.price } : PriceSample)) := by
  induction df with
  | nil => rfl
  | cons r rest ih =>
      simp only [List.map_cons, List.filter_cons]
      by_cases h : r.coin = c
      · rw [if_pos (by simpa using h), if_pos (by simpa using h), List.map_cons, ih]
      · rw [if_neg (by simpa using h), if_neg (by simpa using h), ih]

theorem cacheGet_val_cases {α : Type} (fetcher : ℤ → α) (c : CacheState α) (now : ℤ) :
    (cacheGet fetcher c now).1 = fetcher now
      ∨ ∃ fAt, c.entry = some ((cacheGet fetcher c now).1, fAt) := by
  rcases c with ⟨entry, ttl, n⟩
  cases entry with
  | none => exact Or.inl rfl
  | some p =>
      rcases p with ⟨v, f⟩
      by_cases h : now - f < ttl
      · exact Or.inr ⟨f, by simp [cacheGet, h]⟩
      · exact Or.inl (by simp [cacheGet, h])

theorem cacheGet_entry_cases {α : Type} (fetcher : ℤ → α) (c : CacheState α) (now : ℤ) :
    (cacheGet fetcher c now).2.entry = c.entry
      ∨ (cacheGet fetcher c now).2.entry = some (fetcher now, now) := by
  rcases c with ⟨entry, ttl, n⟩
  cases entry with
  | none => exact Or.inr rfl
  | some p =>
      rcases p with ⟨v, f⟩
      by_cases h : now - f < ttl
      · exact Or.inl (by simp [cacheGet, h])
      · exact Or.inr (by simp [cacheGet, h])

/-- At most one row of the table a run would display carries series key `c`.
This holds for every table the pages build: the CoinGecko payload is a JSON
object keyed by coin (keys are unique) and `SAMPLE_DF` lists each coin
once. -/
def coinOnce (c : String) (res : PriceFetchRes) : Prop :=
  ((runDf res).filter fun r => r.coin = c).length ≤ 1

/-- Every value a cache entry may hold satisfies `coinOnce`. -/
def cacheCoinOnce (c : String) (cs : CacheState PriceFetchRes) : Prop :=
  ∀ v fAt, cs.entry = some (v, fAt) → coinOnce c v

/-- One script run preserves the strict per-series ordering invariant:
if the history is strictly increasing for series `c` and every stored
timestamp is below the `now` of this run, the run appends its rows at `now` and the
result is again strictly increasing with all timestamps at most `now`. -/
theorem priceRun_step_strict (c : String) (fetcher : ℤ → PriceFetchRes)
    (st : PriceScriptState) (now pruneNow : ℤ) (autoRefresh : Bool)
    (hf : ∀ t, coinOnce c (fetcher t)) (hc : cacheCoinOnce c st.cache)
    (hs : seriesStrict c st.history) (hb : ∀ s ∈ st.history, s.ts < now) :
    seriesStrict c (priceScriptRun fetcher st now pruneNow autoRefresh).state.history
    ∧ (∀ s ∈ (priceScriptRun fetcher st now pruneNow autoRefresh).state.history, s.ts ≤ now)
    ∧ cacheCoinOnce c (priceScriptRun fetcher st now pruneNow autoRefresh).state.cache := by
  have hco : coinOnce c (cacheGet fetcher st.cache now).1 := by
    rcases cacheGet_val_cases fetcher st.cache now with h | ⟨fAt, h⟩
    · rw [h]; exact hf now
    · exact hc _ _ h
  have hhist : (priceScriptRun fetcher st now pruneNow autoRefresh).state.history
      = pruneFrom PriceSample.ts (pruneNow - priceWindow)
          (st.history ++ (runDf (cacheGet fetcher st.cache now).1).map
            fun r => ({ ts := now, coin := r.coin, price := r.price } : PriceSample)) := rfl
  refine ⟨?_, ?_, ?_⟩
  · unfold seriesStrict
    rw [hhist]
    have hsub := (pruneFrom_sublist PriceSample.ts (pruneNow - priceWindow)
        (st.history ++ (runDf (cacheGet fetcher st.cache now).1).map
          fun r => ({ ts := now, coin := r.coin, price := r.price } : PriceSample))).filter
        (fun s => decide (s.coin = c))
    refine List.Pairwise.sublist hsub ?_
    rw [List.filter_append, List.pairwise_append]
    refine ⟨hs, ?_, ?_⟩
    · rw [filter_coin_map_rows]
      apply pairwise_of_length_le_one
      rw [List.length_map]
      exact hco
    · intro a ha b hb2
      have ha2 : a ∈ st.history := List.mem_of_mem_filter ha
      have hb3 : b ∈ (runDf (cacheGet fetcher st.cache now).1).map
          fun r => ({ ts := now, coin := r.coin, price := r.price } : PriceSample) :=
        List.mem_of_mem_filter hb2
      rcases List.mem_map.1 hb3 with ⟨r, _, rfl⟩
      exact hb a ha2
  · intro s hsm
    rw [hhist] at hsm
    rcases List.mem_append.1 (mem_of_mem_pruneFrom hsm) with h1 | h2
    · exact le_of_lt (hb s h1)
    · rcases List.mem_map.1 h2 with ⟨r, _, rfl⟩
      exact le_refl now
  · intro v fAt hv
    have hcache : (priceScriptRun fetcher st now pruneNow autoRefresh).state.cache
        = if autoRefresh then cacheClear (cacheGet fetcher st.cache now).2
          else (cacheGet fetcher st.cache now).2 := rfl
    rw [hcache] at hv
    cases autoRefresh with
    | true => simp [cacheClear] at hv
    | false =>
        have hv2 : (cacheGet fetcher st.cache now).2.entry = some (v, fAt) := by
          simpa using hv
        rcases cacheGet_entry_cases fetcher st.cache now with he | he
        · rw [he] at hv2
          exact hc v fAt hv2
        · rw [he] at hv2
          simp only [Option.some.injEq, Prod.mk.injEq] at hv2
          exact hv2.1 ▸ hf now

/-- C7 (amended): on the PRICE page the property holds per series and per run
sequence: provided the runs capture strictly increasing `now` values, every
table has at most one row per series, and the starting history satisfies the
invariant, samples are appended in strictly increasing timestamp order — each
run stamps all its appended samples with its single captured `now` (the prune
cutoff, however, comes from a second `utcnow()` call, and on the WEATHER page
the appended timestamp is the API-reported time, which a cache hit repeats:
see the counterexample). -/
theorem c7_price_strict_increase (c : String) (fetcher : ℤ → PriceFetchRes) :
    ∀ (cycles : List (ℤ × ℤ × Bool)) (st : PriceScriptState),
      (∀ t, coinOnce c (fetcher t)) → cacheCoinOnce c st.cache →
      seriesStrict c st.history →
      (∀ s ∈ st.history, ∀ cyc ∈ cycles, s.ts < cyc.1) →
      cycles.Pairwise (fun a b => a.1 < b.1) →
      seriesStrict c (priceRunTrace fetcher st cycles).history
  | [], _, _, _, hs, _, _ => hs
  | cyc :: rest, st, hf, hc, hs, hb, hmono => by
      rw [List.pairwise_cons] at hmono
      have hstep := priceRun_step_strict c fetcher st cyc.1 cyc.2.1 cyc.2.2 hf hc hs
        (fun s hsm => hb s hsm cyc (List.mem_cons_self _ _))
      exact c7_price_strict_increase c fetcher rest _ hf hstep.2.2 hstep.1
        (fun s hsm cyc2 hcyc2 => lt_of_le_of_lt (hstep.2.1 s hsm) (hmono.1 cyc2 hcyc2))
        hmono.2

/-- A stub weather fetcher that always succeeds with the same API row. -/
def weatherStubFetcher : ℤ → WFetchRes := fun _ => (some (100, 20, 5), none)

/-- Two weather runs 30 s apart from an empty session; the second run is a
cache hit (`ttl = 600`). -/
def c7WeatherTwoRuns : WeatherScriptState :=
  (weatherScriptRun weatherStubFetcher
    ((weatherScriptRun weatherStubFetcher ⟨⟨none, 600, 0⟩, []⟩ 0 0 false).state)
    30 30 false).state

/-- C7, counterexample.  On the weather page the appended timestamp is the
API-reported observation time, not the `now` captured by the cycle, so a cache-hit
run re-appends the same timestamp: after two runs there has been one Fetcher
invocation, the history timestamps are `[100, 100]`, and they are not strictly
increasing. -/
theorem c7_weather_duplicate_ts :
    c7WeatherTwoRuns.cache.fetchCount = 1
      ∧ c7WeatherTwoRuns.history.map WeatherSample.ts = [100, 100]
      ∧ ¬ (c7WeatherTwoRuns.history.map WeatherSample.ts).Pairwise
            (fun a b => a < b) := by decide

/-- C7, witness. -/
theorem c7_price_strict_increase_witness :
    seriesStrict "bitcoin"
      (priceRunTrace priceStubFetcher ⟨⟨none, 300, 0⟩, []⟩
        [(10, 10, true), (20, 20, true)]).history := by
  refine c7_price_strict_increase "bitcoin" priceStubFetcher
      [(10, 10, true), (20, 20, true)] ⟨⟨none, 300, 0⟩, []⟩ ?_ ?_ ?_ ?_ ?_
  · intro t
    show ((runDf (priceStubFetcher t)).filter fun r => r.coin = "bitcoin").length ≤ 1
    have ht : priceStubFetcher t = (some sampleDF, none) := rfl
    rw [ht]
    decide
  · intro v fAt h
    exact Option.noConfusion h
  · unfold seriesStrict
    exact List.Pairwise.nil
  · intro s hsm
    exact absurd hsm (List.not_mem_nil s)
  · decide
